import Mathlib

set_option maxRecDepth 16000

/-!
Verification development for the distributed unique-ID generation subsystem
(the `idgen` package): a shallow embedding of the segment allocator, the
snowflake generator with clock-backward guard, node-id resolution, digit
shaping, `GenId` sequence mixing and the invite-code functions, together with
theorems checking the specified properties.

Machine integers are modelled on `Nat`/`Int` with explicit wrap-around where
overflow matters (`wrap64`, `% 2 ^ 32`).  Redis calls and clock reads are
oracle inputs: an `INCR` on a counter whose current value is `c` returns
`c + 1`; clock reads are parameters constrained by hypotheses that state the
real-time assumptions.
-/

namespace Idgen

/-! ### Constants from the source -/

/-- Invite-code alphabet (confusable characters removed). -/
def inviteCodeChars : List Char := "1234567890ABCDEFGHIJKLMNPQRSTUVWXYZ".toList

/-- Invite-code length. -/
def inviteCodeLength : Nat := 8

/-- Least allowed decimal width for `GenIDWithDigits`. -/
def minAllowedDigits : Nat := 8

/-- Greatest allowed decimal width for `GenIDWithDigits`. -/
def maxAllowedDigits : Nat := 16

/-- Default decimal width used when the requested one is out of range. -/
def defaultDigits : Nat := 10

/-- Node-id bit width. -/
def nodeIDBits : Nat := 10

/-- Sequence bit width. -/
def sequenceBits : Nat := 12

/-- Left shift applied to the timestamp when composing an id. -/
def timestampLeftShift : Nat := nodeIDBits + sequenceBits

/-- Left shift applied to the node id when composing an id. -/
def nodeIDLeftShift : Nat := sequenceBits

/-- Sequence mask `int64(-1) ^ (int64(-1) << sequenceBits)`, i.e. `2 ^ 12 - 1 = 4095`. -/
def sequenceMask : Nat := 2 ^ sequenceBits - 1

/-- Node-id mask `int64(-1) ^ (int64(-1) << nodeIDBits)`, i.e. `2 ^ 10 - 1 = 1023`. -/
def nodeIDMask : Nat := 2 ^ nodeIDBits - 1

/-- Extra guard added to the clock-backward wait (milliseconds). -/
def clockBackwardWaitMs : Nat := 5

/-- Segment capacity (`segmentSize`, the 默认步长). -/
def segmentSize : Nat := 1000

/-- Epoch reference `time.Date(2023,1,1,0,0,0,0,time.UTC).UnixNano() / 1000000`:
2023-01-01T00:00:00Z in milliseconds since the Unix epoch. -/
def startTime : Nat := 1672531200000

/-! ### Segment allocator (`getUniqueIDFromRedisSegment`, `preloadNextSegment`) -/

/-- A locally cached ID segment (`IDSegment`): cursor `current`, capacity
`max`, and the base value of the range. -/
structure IDSegment where
  current : Nat
  max : Nat
  base : Nat
deriving DecidableEq

/-- Per-key state of the segment machinery: the active segment
(`serverSegments[key]`), the at-most-one pending preloaded segment
(`pendingSegments[key]`), and the current value of the Redis counter for the
key (an `INCR` returns `counter + 1`). -/
structure SegAllocState where
  active : Option IDSegment
  pending : Option IDSegment
  counter : Nat
deriving DecidableEq

/-- The segment built from the result `nextVal` of a Redis `INCR` on the
segment counter: `segmentStart := (nextVal - 1) * segmentSize + 1`, cursor 0,
capacity `segmentSize`. -/
def freshSegment (nextVal : Nat) : IDSegment :=
  { current := 0, max := segmentSize, base := (nextVal - 1) * segmentSize + 1 }

/-- The refill branch of `getUniqueIDFromRedisSegment`, taken when the active
segment is missing or exhausted: promote the pending segment if present,
otherwise fetch a fresh one with one Redis `INCR`.  Returns the segment to
serve from, the new state, and the number of `INCR` calls performed. -/
def promoteOrFetch (st : SegAllocState) : IDSegment × SegAllocState × Nat :=
  match st.pending with
  | some p => (p, { st with active := some p, pending := none }, 0)
  | none =>
    let nextVal := st.counter + 1
    let seg := freshSegment nextVal
    (seg, { st with active := some seg, counter := nextVal }, 1)

/-- One call into the allocation part of `getUniqueIDFromRedisSegment` (the
asynchronous preload it may additionally spawn is modelled separately by
`preloadNextSegment`): refill if the active segment is missing or
`current >= max`, then issue `base + current` and advance the cursor.
Returns the issued raw candidate, the new state, and the number of Redis
`INCR` calls performed. -/
def allocStep (st : SegAllocState) : Nat × SegAllocState × Nat :=
  let (seg, st1, k) :=
    match st.active with
    | some seg => if seg.current ≥ seg.max then promoteOrFetch st else (seg, st, 0)
    | none => promoteOrFetch st
  (seg.base + seg.current,
    { st1 with active := some { seg with current := seg.current + 1 } }, k)

/-- Run `k` consecutive allocation calls, collecting the issued raw candidates
and the total number of Redis `INCR` calls. -/
def allocRun : Nat → SegAllocState → List Nat × SegAllocState × Nat
  | 0, st => ([], st, 0)
  | k + 1, st =>
    let (id, st1, c) := allocStep st
    let (ids, st2, cs) := allocRun k st1
    (id :: ids, st2, c + cs)

/-- Preload threshold `int64(float64(max) * (1 - segmentPreloadThreshold))`: for the only
capacity the source ever creates (`segmentSize = 1000`) the float expression
evaluates exactly to `900 = max * 9 / 10`. -/
def preloadThreshold (max : Nat) : Nat := max * 9 / 10

/-- The preload-trigger decision inside `getUniqueIDFromRedisSegment`: it is
reached in the branch where the active segment exists and is not exhausted,
and fires when the cursor has consumed at least the preload threshold and no
load is marked in flight for the key. -/
def preloadTriggered (st : SegAllocState) (loading : Bool) : Bool :=
  match st.active with
  | some seg =>
    decide (seg.current < seg.max) && decide (preloadThreshold seg.max ≤ seg.current) && !loading
  | none => false

/-- Preload task `preloadNextSegment`: return immediately if the loading flag is set,
otherwise mark loading, perform one Redis `INCR` (`redisOK` tells whether it
succeeded; on failure a warning is logged and nothing else changes), build the
next segment and install it — replacing the active segment if it has
exhausted in the meantime, storing it as the pending segment otherwise — and
finally clear the loading flag.  Returns the new state, the new loading flag,
and the number of Redis `INCR` calls made. -/
def preloadNextSegment (st : SegAllocState) (loading : Bool) (redisOK : Bool) :
    SegAllocState × Bool × Nat :=
  if loading then (st, loading, 0)
  else if redisOK then
    let nextVal := st.counter + 1
    let seg := freshSegment nextVal
    match st.active with
    | some a =>
      if a.current ≥ a.max then ({ st with active := some seg, counter := nextVal }, false, 1)
      else ({ st with pending := some seg, counter := nextVal }, false, 1)
    | none => ({ st with active := some seg, counter := nextVal }, false, 1)
  else (st, false, 1)

/-! ### Digit shaping (`getUniqueIDFromRedisSegment` tail, `GenIDWithDigits`)

Decimal strings are modelled as little-endian digit lists (`Nat.digits 10`):
the rendered string of `n` has `(Nat.digits 10 n).length` characters,
truncating it from the right keeps the low `digits` entries of the list, and
prepending pad characters appends them here in reverse. -/

/-- The value computation of `getUniqueIDFromRedisSegment` after the raw
candidate `baseID = segment.base + localOffset` has been drawn: `minValue` is
built by the loop multiplying 1 by ten `digits - 1` times (so `10^(digits-1)`),
then modular reduction into the decimal range and the exact-width adjustment
(truncate from the right, or left-pad with "0" characters). -/
def segFinalID (digits : Nat) (baseID : Nat) : Nat :=
  let minValue := 10 ^ (digits - 1)
  let maxValue := minValue * 10 - 1
  let finalID := baseID % (maxValue - minValue + 1) + minValue
  let ds := Nat.digits 10 finalID
  if digits < ds.length then Nat.ofDigits 10 (ds.take digits)
  else if ds.length < digits then Nat.ofDigits 10 (ds ++ List.replicate (digits - ds.length) 0)
  else finalID

/-- The random left-padding of the local fallback path: `padLen` draws of
`r.Intn(10)` (draw `i` is modelled as `draws i % 10`), most significant digit
first; an all-zero pad gets its first character replaced by "1". -/
def localPad (padLen : Nat) (draws : Nat → Nat) : List Nat :=
  let w := (List.range padLen).map fun i => draws i % 10
  if w.all (· = 0) then 1 :: w.drop 1 else w

/-- The local fallback value computation of `GenIDWithDigits`: mask the sign
bit off the snowflake id (`uint64(snowflakeID & 0x7FFFFFFFFFFFFFFF)`), reduce
modulo `maxValue - minValue`, shift into range, adjust to the exact width
(randomly left-padding if short), and finally re-add `minValue` if the result
is below it. -/
def localFinalID (digits : Nat) (snowflakeID : Nat) (draws : Nat → Nat) : Nat :=
  let minValue := 10 ^ (digits - 1)
  let maxValue := minValue * 10 - 1
  let baseValue := snowflakeID &&& 0x7FFFFFFFFFFFFFFF
  let finalID := baseValue % (maxValue - minValue) + minValue
  let ds := Nat.digits 10 finalID
  let shaped :=
    if digits < ds.length then Nat.ofDigits 10 (ds.take digits)
    else if ds.length < digits then
      Nat.ofDigits 10 (ds ++ (localPad (digits - ds.length) draws).reverse)
    else finalID
  if shaped < minValue then shaped + minValue else shaped

/-- Dispatcher `GenIDWithDigits`: clamp the requested width to `[8, 16]` (default 10 when
out of range); with a Redis client (`redis = some r`) try the segment
allocator — `r = .ok baseID` means a raw candidate was drawn and is shaped by
`segFinalID`, `r = .error e` means the Redis path failed, which is logged and
swallowed — and otherwise take the local snowflake-derived fallback, which
cannot fail. -/
def genIDWithDigits (digits : Nat) (redis : Option (Except String Nat))
    (snowflakeID : Nat) (draws : Nat → Nat) : Except String Nat :=
  let d := if digits < minAllowedDigits || maxAllowedDigits < digits then defaultDigits else digits
  match redis with
  | some (.ok baseID) => .ok (segFinalID d baseID)
  | some (.error _) => .ok (localFinalID d snowflakeID draws)
  | none => .ok (localFinalID d snowflakeID draws)

/-- Spec-side formula for the segment path: "compute
`value = (candidate mod (max - min + 1)) + min` where `min`/`max` bound the
`digitWidth`-digit decimal space". -/
def segFormula (digits : Nat) (baseID : Nat) : Nat :=
  baseID % (10 ^ digits - 10 ^ (digits - 1)) + 10 ^ (digits - 1)

/-- Spec-side plain modular formula for the local fallback path (the source
uses the modulus `maxValue - minValue` here). -/
def localFormula (digits : Nat) (snowflakeID : Nat) : Nat :=
  (snowflakeID &&& 0x7FFFFFFFFFFFFFFF) % (10 ^ digits - 10 ^ (digits - 1) - 1)
    + 10 ^ (digits - 1)

/-! ### Snowflake core (`generateSnowflakeID`, `handleClockBackward`) -/

/-- Generator state: last issued timestamp (ms) and the running sequence
counter (both atomics in the source; calls here are sequential). -/
structure SnowState where
  lastTimestamp : Nat
  sequence : Nat
deriving DecidableEq

/-- Clock guard `handleClockBackward`: when the freshly read clock is behind the recorded
timestamp the source sleeps `lastTs - currentTs + clockBackwardWaitMs`
milliseconds and returns a re-read of the clock; `tAfterSleep` is that re-read
value.  The theorems assume the clock advances by at least the slept duration,
i.e. `lastTs + clockBackwardWaitMs ≤ tAfterSleep`. -/
def handleClockBackward (lastTs currentTs tAfterSleep : Nat) : Nat :=
  if currentTs < lastTs then tAfterSleep else currentTs

/-- Bit composition `id := ((timestamp - startTime) << timestampLeftShift) |
(nodeID << nodeIDLeftShift) | seq`. -/
def composeID (ts nodeID seq : Nat) : Nat :=
  ((ts - startTime) <<< timestampLeftShift) ||| (nodeID <<< nodeIDLeftShift) ||| seq

/-- Generator step `generateSnowflakeID`, as a pure step on `SnowState` with clock oracles:
`now` is the `timeGen()` read, `tAfterSleep` the clock after the
backward-guard sleep, and `tNext` the value returned by `tilNextMillis` (whose
loop re-reads the clock until it exceeds `lastTimestamp`).  The source's error
result is unconditionally `nil`, so the embedding returns the id and the new
state directly. -/
def generateSnowflakeID (nodeID : Nat) (st : SnowState) (now tAfterSleep tNext : Nat) :
    Nat × SnowState :=
  let timestamp := handleClockBackward st.lastTimestamp now tAfterSleep
  if timestamp = st.lastTimestamp then
    let seqCtr := st.sequence + 1
    let seq := seqCtr &&& sequenceMask
    if seq = 0 then (composeID tNext nodeID seq, { lastTimestamp := tNext, sequence := seqCtr })
    else (composeID timestamp nodeID seq, { lastTimestamp := timestamp, sequence := seqCtr })
  else (composeID timestamp nodeID 0, { lastTimestamp := timestamp, sequence := 0 })

/-- The id emitted by the call that produced state `st`: the stored timestamp
with the low `sequenceBits` bits of the stored counter.  Serves as the
strict-increase invariant between consecutive calls. -/
def emittedOf (nodeID : Nat) (st : SnowState) : Nat :=
  composeID st.lastTimestamp nodeID (st.sequence &&& sequenceMask)

/-! ### `GenId` -/

/-- Raw-id entry `GenId`: with Redis available, `finalID = int64(flakeID) ^ (seq << 10)`
mixes the Redis `INCR` result `seq` into the sonyflake output; on a Redis
failure or without a client, the sonyflake id is returned unchanged.
Sonyflake ids occupy 63 bits, so for the values of interest the `int64`
conversions are value-preserving and the xor is modelled on `Nat`. -/
def genId (redisSeq : Option Nat) (flakeID : Nat) : Nat :=
  match redisSeq with
  | some seq => flakeID ^^^ (seq <<< 10)
  | none => flakeID

/-! ### Machine id and node-slot resolution (`getMachineID`, `initFlake`) -/

/-- FNV-1a 32-bit hash of a byte string. -/
def fnv32 (s : List Nat) : Nat :=
  s.foldl (fun h c => ((h ^^^ c) * 16777619) % 2 ^ 32) 2166136261

/-- Byte sum (`sum`). -/
def sumBytes (l : List Nat) : Nat := l.foldl (· + ·) 0

/-- Where the resolved machine id comes from in `getMachineID` / `initFlake`:
Kubernetes metadata (FNV-1a hash mod 1024), a container id (byte sum mod
1024), a MAC address (byte sum mod 1024), or the random fallback
`rand.Intn(1024)` used when `getMachineID` fails (`Intn` returns a value in
`[0, 1024)`, modelled as `r % 1024`). -/
inductive MachineIDSource where
  | k8s (meta : List Nat)
  | docker (containerID : List Nat)
  | mac (hardwareAddr : List Nat)
  | rand (r : Nat)

/-- The machine id produced by each resolution path. -/
def machineIDOf : MachineIDSource → Nat
  | .k8s meta => fnv32 meta % 1024
  | .docker cid => sumBytes cid % 1024
  | .mac addr => sumBytes addr % 1024
  | .rand r => r % 1024

/-- Slot allocation `allocateNodeIDFromRedis`: `SETNX` the preferred slot (`setnxOK`), else
linearly probe slots 0..1023 (`probe` is the first free slot, if any; `none`
means no slot could be reserved, surfaced as an error). -/
def allocateNodeIDFromRedis (preferredID : Int) (setnxOK : Bool) (probe : Option (Fin 1024)) :
    Option Int :=
  if setnxOK then some preferredID
  else
    match probe with
    | some i => some ((i : Nat) : Int)
    | none => none

/-- The node id chosen when the saved-file path is not used: Redis allocation
when a client is available, the degraded local fallback
`int64(machineID) & nodeIDMask` otherwise or on allocation failure. -/
def resolveViaAlloc (machineID : Nat) (redisAvail setnxOK : Bool) (probe : Option (Fin 1024)) :
    Int :=
  if redisAvail then
    match allocateNodeIDFromRedis ((machineID : Nat) : Int) setnxOK probe with
    | some id => id
    | none => ((machineID &&& nodeIDMask : Nat) : Int)
  else ((machineID &&& nodeIDMask : Nat) : Int)

/-- The nodeID determination of `initFlake`: a positive node id parsed from
the local persist file is used as-is when Redis is unavailable, and used after
a bare `EXISTS` check (`savedValid`) when Redis is available; in every other
case fall through to Redis allocation / the masked local fallback. -/
def resolveNodeID (machineID : Nat) (saved : Option Int) (redisAvail savedValid setnxOK : Bool)
    (probe : Option (Fin 1024)) : Int :=
  match saved with
  | some s =>
    if 0 < s then
      if redisAvail then
        if savedValid then s else resolveViaAlloc machineID redisAvail setnxOK probe
      else s
    else resolveViaAlloc machineID redisAvail setnxOK probe
  | none => resolveViaAlloc machineID redisAvail setnxOK probe

/-- Whether `initFlake` takes the restore-from-file path. -/
def usesSavedPath : Option Int → Bool → Bool → Bool
  | some s, redisAvail, savedValid => decide (0 < s) && (!redisAvail || savedValid)
  | none, _, _ => false

/-! ### Invite codes (`GenInviteCode`, `VerifyInviteCode`) -/

/-- Two's-complement wrap of an integer into `int64`. -/
def wrap64 (n : Int) : Int := (n + 2 ^ 63) % 2 ^ 64 - 2 ^ 63

/-- The character loop of the Redis invite-code path: at step `i`,
`charIndex := int((mixedSeq + int64(i)*79) % 35)` indexes the alphabet bytes —
Go's `%` truncates towards zero (`Int.tmod`), so a negative `mixedSeq` makes
the index negative and the byte indexing panics, modelled by `none` — then
`mixedSeq = mixedSeq*31 + int64(part2)` with `int64` wrap-around. -/
def inviteRedisChars (part2 : Nat) : Nat → Nat → Int → Option (List Char)
  | 0, _, _ => some []
  | k + 1, i, mixedSeq =>
    let idx := (wrap64 (mixedSeq + (i : Int) * 79)).tmod 35
    if 0 ≤ idx then
      match inviteCodeChars.get? idx.toNat with
      | some c => (inviteRedisChars part2 k (i + 1) (wrap64 (mixedSeq * 31 + (part2 : Int)))).map (c :: ·)
      | none => none
    else none

/-- The Redis path of `GenInviteCode` for `INCR` result `seq`:
`mixedSeq₀ = inviteCodeSeq ^ int64(part1) ^ int64(part3)` (all nonnegative
here, so the `int64` xor coincides with the `Nat` xor). -/
def genInviteCodeRedis (userID : Nat) (seq : Nat) : Option (List Char) :=
  let part1 := userID &&& 0xFFFF
  let part2 := (userID >>> 16) &&& 0xFFFF
  let part3 := (userID >>> 32) &&& 0xFFFF
  inviteRedisChars part2 inviteCodeLength 0 (((seq ^^^ part1 ^^^ part3 : Nat) : Int))

/-- The character loop of the local fallback: the first three characters come
from the mixed user-id features (uint32 arithmetic, wrap modelled by
`% 2 ^ 32`; the resulting index is always in `[0, 35)`, so the defensive
re-draw branch in the source is dead and omitted), the remaining five are
random draws (`rnds i % 35` models `r.Intn(len(inviteCodeChars))`). -/
def inviteLocalChars (p13 : Nat) (rnds : Nat → Nat) : Nat → Nat → Nat → List Char
  | 0, _, _ => []
  | k + 1, i, mixValue =>
    if i < 3 then
      let index := (mixValue + i * 7919) % 2 ^ 32 % 35
      inviteCodeChars.getD index 'X'
        :: inviteLocalChars p13 rnds k (i + 1) ((mixValue * 31 + p13) % 2 ^ 32)
    else
      inviteCodeChars.getD (rnds i % 35) 'X'
        :: inviteLocalChars p13 rnds k (i + 1) mixValue

/-- The local fallback path of `GenInviteCode`:
`mixValue₀ = (part1 ^ part2 ^ part3 ^ part4) | uint32(r.Intn(10000))`, then
eight characters from `inviteLocalChars`. -/
def genInviteCodeLocal (userID : Nat) (rnd0 : Nat) (rnds : Nat → Nat) : List Char :=
  let part1 := userID &&& 0xFFFF
  let part2 := (userID >>> 16) &&& 0xFFFF
  let part3 := (userID >>> 32) &&& 0xFFFF
  let part4 := (userID >>> 48) &&& 0xFFFF
  let mixValue := (part1 ^^^ part2 ^^^ part3 ^^^ part4) ||| (rnd0 % 10000)
  inviteLocalChars (part1 + part3) rnds inviteCodeLength 0 mixValue

/-- Entry point `GenInviteCode`: error on a zero user id; Redis path when the `INCR`
succeeds (`redisSeq = some seq`); local fallback otherwise.  A result of
`none` models a runtime panic from a negative character index. -/
def genInviteCode (userID : Nat) (redisSeq : Option Nat) (rnd0 : Nat) (rnds : Nat → Nat) :
    Option (Except String (List Char)) :=
  if userID = 0 then some (.error "userID cannot be zero")
  else
    match redisSeq with
    | some seq => (genInviteCodeRedis userID seq).map .ok
    | none => some (.ok (genInviteCodeLocal userID rnd0 rnds))

/-- Format check `VerifyInviteCode`: nonempty, exactly `inviteCodeLength` characters, and
(after upper-casing) every character contained in the alphabet. -/
def verifyInviteCode (code : List Char) : Bool :=
  if code = [] then false
  else if code.length ≠ inviteCodeLength then false
  else (code.map Char.toUpper).all fun c => inviteCodeChars.contains c

/-! ### Helper lemmas -/

/-- Or-ing a left shift with a value below the shift width is addition. -/
theorem shiftLeft_lor_eq_add (a b k : Nat) (hb : b < 2 ^ k) :
    (a <<< k) ||| b = a * 2 ^ k + b := by
  calc (a <<< k) ||| b = 2 ^ k * a ||| b := by rw [Nat.shiftLeft_eq, Nat.mul_comm]
    _ = 2 ^ k * a + b := (Nat.mul_add_lt_is_or hb a).symm
    _ = a * 2 ^ k + b := by ring

/-- The composed id is the arithmetic sum of its fields. -/
theorem composeID_eq (ts nodeID seq : Nat) (hn : nodeID < 2 ^ nodeIDBits)
    (hs : seq < 2 ^ sequenceBits) :
    composeID ts nodeID seq = (ts - startTime) * 2 ^ 22 + nodeID * 2 ^ 12 + seq := by
  have hn' : nodeID < 2 ^ 10 := hn
  have hs' : seq < 2 ^ 12 := hs
  have h1 : nodeID <<< 12 < 2 ^ 22 := by
    rw [Nat.shiftLeft_eq]
    calc nodeID * 2 ^ 12 < 2 ^ 10 * 2 ^ 12 := by
          exact Nat.mul_lt_mul_of_lt_of_le hn' (le_refl _) (by norm_num)
      _ = 2 ^ 22 := by norm_num
  have e1 : ((ts - startTime) <<< 22) ||| (nodeID <<< 12)
      = ((ts - startTime) * 2 ^ 10 + nodeID) * 2 ^ 12 := by
    rw [shiftLeft_lor_eq_add _ _ 22 h1, Nat.shiftLeft_eq]; ring
  have e2 : (((ts - startTime) * 2 ^ 10 + nodeID) * 2 ^ 12) ||| seq
      = ((ts - startTime) * 2 ^ 10 + nodeID) * 2 ^ 12 + seq := by
    have h := shiftLeft_lor_eq_add ((ts - startTime) * 2 ^ 10 + nodeID) seq 12 hs'
    rwa [Nat.shiftLeft_eq] at h
  show ((ts - startTime) <<< timestampLeftShift) ||| (nodeID <<< nodeIDLeftShift) ||| seq = _
  have ht : timestampLeftShift = 22 := rfl
  have hn12 : nodeIDLeftShift = 12 := rfl
  rw [ht, hn12, e1, e2]; ring

/-- Strict monotonicity of the composition in the timestamp field. -/
theorem composeID_lt_of_ts {ts1 ts2 nodeID seq1 seq2 : Nat} (h : ts1 < ts2)
    (hts : startTime ≤ ts1) (hn : nodeID < 2 ^ nodeIDBits)
    (hs1 : seq1 < 2 ^ sequenceBits) (hs2 : seq2 < 2 ^ sequenceBits) :
    composeID ts1 nodeID seq1 < composeID ts2 nodeID seq2 := by
  rw [composeID_eq ts1 nodeID seq1 hn hs1, composeID_eq ts2 nodeID seq2 hn hs2]
  have hn' : nodeID < 1024 := hn
  have hs1' : seq1 < 4096 := hs1
  have hs2' : seq2 < 4096 := hs2
  have e22 : (2 : Nat) ^ 22 = 4194304 := by norm_num
  have e12 : (2 : Nat) ^ 12 = 4096 := by norm_num
  rw [e22, e12]
  omega

/-- Strict monotonicity of the composition in the sequence field. -/
theorem composeID_lt_of_seq {ts nodeID seq1 seq2 : Nat} (h : seq1 < seq2)
    (hn : nodeID < 2 ^ nodeIDBits) (hs2 : seq2 < 2 ^ sequenceBits) :
    composeID ts nodeID seq1 < composeID ts nodeID seq2 := by
  have hs1 : seq1 < 2 ^ sequenceBits := lt_trans h hs2
  rw [composeID_eq ts nodeID seq1 hn hs1, composeID_eq ts nodeID seq2 hn hs2]
  omega

/-- Masking with `sequenceMask` is reduction mod `2 ^ 12`. -/
theorem and_sequenceMask (c : Nat) : c &&& sequenceMask = c % 4096 := by
  have h := Nat.and_pow_two_sub_one_eq_mod c 12
  norm_num at h
  simpa [sequenceMask, sequenceBits] using h

/-- Masking with `nodeIDMask` is reduction mod `2 ^ 10`. -/
theorem and_nodeIDMask (c : Nat) : c &&& nodeIDMask = c % 1024 := by
  have h := Nat.and_pow_two_sub_one_eq_mod c 10
  norm_num at h
  simpa [nodeIDMask, nodeIDBits] using h

/-- A value in the `d`-digit decimal range renders with exactly `d` digits. -/
theorem digits_length_eq_of_range {d v : Nat} (hd : 1 ≤ d) (h1 : 10 ^ (d - 1) ≤ v)
    (h2 : v < 10 ^ d) : (Nat.digits 10 v).length = d := by
  have hv : v ≠ 0 := by
    have : (1 : Nat) ≤ 10 ^ (d - 1) := Nat.one_le_pow _ _ (by norm_num)
    omega
  rw [Nat.digits_len 10 v (by norm_num) hv]
  have hlog : Nat.log 10 v = d - 1 := by
    refine Nat.log_eq_of_pow_le_of_lt_pow h1 ?_
    rwa [Nat.sub_add_cancel hd]
  omega

/-- Identity `10 ^ (d-1) * 10 = 10 ^ d` for positive `d`. -/
theorem pow_pred_mul_ten {d : Nat} (hd : 1 ≤ d) : 10 ^ (d - 1) * 10 = 10 ^ d := by
  rw [← pow_succ]
  congr 1
  omega

/-- The segment-path shaping is extensionally the plain modular formula. -/
theorem segFinalID_eq_formula (d baseID : Nat) (hd : 1 ≤ d) :
    segFinalID d baseID = segFormula d baseID := by
  have hpow := pow_pred_mul_ten hd
  have hmin1 : (1 : Nat) ≤ 10 ^ (d - 1) := Nat.one_le_pow _ _ (by norm_num)
  have hspan : 10 ^ (d - 1) * 10 - 1 - 10 ^ (d - 1) + 1 = 10 ^ d - 10 ^ (d - 1) := by omega
  have hspanpos : 0 < 10 ^ d - 10 ^ (d - 1) := by omega
  have hlen : (Nat.digits 10 (baseID % (10 ^ d - 10 ^ (d - 1)) + 10 ^ (d - 1))).length = d := by
    refine digits_length_eq_of_range hd (by omega) ?_
    have := Nat.mod_lt baseID hspanpos
    omega
  simp only [segFinalID, segFormula]
  rw [hspan, hlen]
  simp

/-- The local-fallback shaping is extensionally the plain modular formula. -/
theorem localFinalID_eq_formula (d snowflakeID : Nat) (draws : Nat → Nat) (hd : 1 ≤ d) :
    localFinalID d snowflakeID draws = localFormula d snowflakeID := by
  have hpow := pow_pred_mul_ten hd
  have hmin1 : (1 : Nat) ≤ 10 ^ (d - 1) := Nat.one_le_pow _ _ (by norm_num)
  have hspan : 10 ^ (d - 1) * 10 - 1 - 10 ^ (d - 1) = 10 ^ d - 10 ^ (d - 1) - 1 := by omega
  have hspanpos : 0 < 10 ^ d - 10 ^ (d - 1) - 1 := by omega
  have hlen : (Nat.digits 10 ((snowflakeID &&& 0x7FFFFFFFFFFFFFFF)
      % (10 ^ d - 10 ^ (d - 1) - 1) + 10 ^ (d - 1))).length = d := by
    refine digits_length_eq_of_range hd (by omega) ?_
    have := Nat.mod_lt (snowflakeID &&& 0x7FFFFFFFFFFFFFFF) hspanpos
    omega
  have hge : ¬((snowflakeID &&& 0x7FFFFFFFFFFFFFFF) % (10 ^ d - 10 ^ (d - 1) - 1)
      + 10 ^ (d - 1) < 10 ^ (d - 1)) := by omega
  simp only [localFinalID, localFormula]
  rw [hspan, hlen]
  simp only [lt_irrefl, if_false, if_neg hge]

/-- Range of the segment-path result. -/
theorem segFinalID_range (d baseID : Nat) (hd : 1 ≤ d) :
    10 ^ (d - 1) ≤ segFinalID d baseID ∧ segFinalID d baseID < 10 ^ d := by
  rw [segFinalID_eq_formula d baseID hd]
  have hpow := pow_pred_mul_ten hd
  have hmin1 : (1 : Nat) ≤ 10 ^ (d - 1) := Nat.one_le_pow _ _ (by norm_num)
  have hspanpos : 0 < 10 ^ d - 10 ^ (d - 1) := by omega
  have := Nat.mod_lt baseID hspanpos
  unfold segFormula
  omega

/-- Range of the local-fallback result. -/
theorem localFinalID_range (d snowflakeID : Nat) (draws : Nat → Nat) (hd : 1 ≤ d) :
    10 ^ (d - 1) ≤ localFinalID d snowflakeID draws ∧
    localFinalID d snowflakeID draws < 10 ^ d := by
  rw [localFinalID_eq_formula d snowflakeID draws hd]
  have hpow := pow_pred_mul_ten hd
  have hmin1 : (1 : Nat) ≤ 10 ^ (d - 1) := Nat.one_le_pow _ _ (by norm_num)
  have hspanpos : 0 < 10 ^ d - 10 ^ (d - 1) - 1 := by omega
  have := Nat.mod_lt (snowflakeID &&& 0x7FFFFFFFFFFFFFFF) hspanpos
  unfold localFormula
  omega

/-! ### Claim theorems: C10, C1, C6 -/

/-- C10: in `getUniqueIDFromRedisSegment` and in the local fallback path of
`GenIDWithDigits`, whenever the raw candidate is nonnegative (always, in this
ℕ model of the nonnegative `int64`/`uint64` values) the modular reduction
already yields a value with exactly `digits` decimal digits, so the
truncate-from-right / left-pad adjustment and the final `finalID < minValue`
correction never change the result: each function is extensionally equal to
the plain modular formula. -/
theorem claim10_shaping_is_noop (d baseID snowflakeID : Nat) (draws : Nat → Nat)
    (hd : 1 ≤ d) :
    segFinalID d baseID = segFormula d baseID ∧
    localFinalID d snowflakeID draws = localFormula d snowflakeID :=
  ⟨segFinalID_eq_formula d baseID hd, localFinalID_eq_formula d snowflakeID draws hd⟩

/-- Witness for C10 at a concrete input. -/
theorem claim10_shaping_is_noop_witness :
    1 ≤ 10 ∧
    (segFinalID 10 12345 = segFormula 10 12345 ∧
      localFinalID 10 777 (fun _ => 3) = localFormula 10 777) :=
  ⟨by decide, claim10_shaping_is_noop 10 12345 777 (fun _ => 3) (by decide)⟩

/-- C1: for every digit width `n` in `[8, 16]`, every value returned by
`GenIDWithDigits(n)` — Redis-segment path and local fallback path alike —
lies in `[10^(n-1), 10^n - 1]`, i.e. has exactly `n` decimal digits and a
non-zero leading digit. -/
theorem claim1_digit_width (n : Nat) (h8 : minAllowedDigits ≤ n) (h16 : n ≤ maxAllowedDigits)
    (redis : Option (Except String Nat)) (snowflakeID : Nat) (draws : Nat → Nat) (v : Nat)
    (hv : genIDWithDigits n redis snowflakeID draws = .ok v) :
    10 ^ (n - 1) ≤ v ∧ v < 10 ^ n := by
  have h8' : 8 ≤ n := h8
  have h16' : n ≤ 16 := h16
  have hn1 : 1 ≤ n := by omega
  have hcond : (n < minAllowedDigits || maxAllowedDigits < n) = false := by
    simp only [minAllowedDigits, maxAllowedDigits, Bool.or_eq_false_iff,
      decide_eq_false_iff_not, Nat.not_lt]
    omega
  unfold genIDWithDigits at hv
  rw [hcond] at hv
  simp only [Bool.false_eq_true, if_false] at hv
  match redis with
  | some (.ok baseID) =>
    simp only [Except.ok.injEq] at hv
    subst hv
    exact segFinalID_range n baseID hn1
  | some (.error e) =>
    simp only [Except.ok.injEq] at hv
    subst hv
    exact localFinalID_range n snowflakeID draws hn1
  | none =>
    simp only [Except.ok.injEq] at hv
    subst hv
    exact localFinalID_range n snowflakeID draws hn1

/-- Witness for C1 at a concrete input. -/
theorem claim1_digit_width_witness :
    (minAllowedDigits ≤ 10 ∧ 10 ≤ maxAllowedDigits ∧
      genIDWithDigits 10 none 0 (fun _ => 0) = .ok (localFinalID 10 0 (fun _ => 0))) ∧
    (10 ^ 9 ≤ localFinalID 10 0 (fun _ => 0) ∧ localFinalID 10 0 (fun _ => 0) < 10 ^ 10) :=
  ⟨⟨by decide, by decide, rfl⟩,
    claim1_digit_width 10 (by decide) (by decide) none 0 (fun _ => 0) _ rfl⟩

/-- C6: if every Redis call fails, `GenIDWithDigits(10)` still returns a
syntactically valid 10-digit value together with a nil error: the Redis
segment-allocation failure (any error `e`) is swallowed, the local
snowflake-derived path is taken, and no Redis error reaches the caller. -/
theorem claim6_redis_failure_fallback (e : String) (snowflakeID : Nat) (draws : Nat → Nat) :
    genIDWithDigits 10 (some (.error e)) snowflakeID draws
        = .ok (localFinalID 10 snowflakeID draws) ∧
    10 ^ 9 ≤ localFinalID 10 snowflakeID draws ∧
    localFinalID 10 snowflakeID draws < 10 ^ 10 := by
  refine ⟨rfl, ?_, ?_⟩
  · exact (localFinalID_range 10 snowflakeID draws (by norm_num)).1
  · exact (localFinalID_range 10 snowflakeID draws (by norm_num)).2

/-! ### Segment allocator lemmas -/

/-- An allocation call within a non-exhausted segment issues `base + current`,
advances the cursor, and performs no Redis call. -/
theorem allocStep_within (c m b n : Nat) (p : Option IDSegment) (h : c < m) :
    allocStep ⟨some ⟨c, m, b⟩, p, n⟩ = (b + c, ⟨some ⟨c + 1, m, b⟩, p, n⟩, 0) := by
  unfold allocStep
  simp [Nat.not_le.mpr h]

/-- Unfolding lemma for `allocRun` at a successor, stated with projections. -/
theorem allocRun_succ (k : Nat) (st : SegAllocState) :
    allocRun (k + 1) st =
      ((allocStep st).1 :: (allocRun k (allocStep st).2.1).1,
        (allocRun k (allocStep st).2.1).2.1,
        (allocStep st).2.2 + (allocRun k (allocStep st).2.1).2.2) := rfl

/-- Running `k ≤` remaining-capacity calls inside one segment issues the `k`
consecutive values from the cursor and performs no Redis call. -/
theorem allocRun_within (k : Nat) : ∀ (c m b n : Nat) (p : Option IDSegment), c + k ≤ m →
    allocRun k ⟨some ⟨c, m, b⟩, p, n⟩ =
      ((List.range k).map (fun i => b + c + i), ⟨some ⟨c + k, m, b⟩, p, n⟩, 0) := by
  induction k with
  | zero => intro c m b n p h; simp [allocRun]
  | succ k ih =>
    intro c m b n p h
    have h1 : c < m := by omega
    have hck : c + (k + 1) = c + 1 + k := by omega
    have hf : (fun i => b + c + (i + 1)) = (fun i => b + (c + 1) + i) := by
      funext i; omega
    rw [allocRun_succ]
    simp only [allocStep_within c m b n p h1]
    rw [ih (c + 1) m b n p (by omega)]
    rw [hck, List.range_succ_eq_map, List.map_cons, List.map_map]
    simp [Function.comp_def, hf]

/-- Allocation runs compose. -/
theorem allocRun_add (j k : Nat) : ∀ st : SegAllocState,
    allocRun (j + k) st =
      ((allocRun j st).1 ++ (allocRun k (allocRun j st).2.1).1,
        (allocRun k (allocRun j st).2.1).2.1,
        (allocRun j st).2.2 + (allocRun k (allocRun j st).2.1).2.2) := by
  induction j with
  | zero => intro st; simp [allocRun]
  | succ j ih =>
    intro st
    rw [show j + 1 + k = (j + k) + 1 from by omega]
    rw [allocRun_succ (j + k) st, allocRun_succ j st]
    rw [ih (allocStep st).2.1]
    simp [List.cons_append, Nat.add_assoc]

/-- Mapping over a successor range, peeling the head. -/
theorem map_range_succ (f : Nat → Nat) (k : Nat) :
    (List.range (k + 1)).map f = f 0 :: (List.range k).map (fun i => f (i + 1)) := by
  rw [List.range_succ_eq_map, List.map_cons, List.map_map]
  simp [Function.comp_def]

/-- After exhaustion with no pending segment, a 1000-call run fetches one
fresh segment (one `INCR` in total) and issues its 1000 consecutive values. -/
theorem allocRun_after_exhaustion (b n : Nat) :
    allocRun segmentSize ⟨some ⟨segmentSize, segmentSize, b⟩, none, n⟩ =
      ((List.range segmentSize).map (fun i => n * segmentSize + 1 + i),
        ⟨some ⟨segmentSize, segmentSize, n * segmentSize + 1⟩, none, n + 1⟩, 1) := by
  have key : ∀ k m : Nat, k + 1 = segmentSize →
      allocRun (k + 1) ⟨some ⟨m, m, b⟩, none, n⟩ =
        ((List.range (k + 1)).map (fun i => n * segmentSize + 1 + i),
          ⟨some ⟨k + 1, segmentSize, n * segmentSize + 1⟩, none, n + 1⟩, 1) := by
    intro k m hk
    have hstep : allocStep ⟨some ⟨m, m, b⟩, none, n⟩ =
        (n * segmentSize + 1,
          ⟨some ⟨1, segmentSize, n * segmentSize + 1⟩, none, n + 1⟩, 1) := by
      unfold allocStep promoteOrFetch freshSegment
      simp [segmentSize]
    have hf : (fun i => n * segmentSize + 1 + (i + 1))
        = (fun i => n * segmentSize + 1 + 1 + i) := by
      funext i; omega
    rw [allocRun_succ]
    simp only [hstep]
    rw [allocRun_within k 1 segmentSize (n * segmentSize + 1) (n + 1) none (by omega)]
    rw [map_range_succ (fun i => n * segmentSize + 1 + i) k]
    simp only []
    rw [hf]
    simp [Nat.add_comm 1 k, hk]
  have h := key 999 segmentSize rfl
  exact h

/-- Two shifted copies of a range with disjoint spans concatenate without
duplicates. -/
theorem nodup_range_maps (s b1 b2 : Nat) (h : b1 + s ≤ b2) :
    (((List.range s).map (fun i => b1 + i)) ++ ((List.range s).map (fun i => b2 + i))).Nodup := by
  refine List.Nodup.append ?_ ?_ ?_
  · exact List.Nodup.map (fun a b hab => by omega) (List.nodup_range s)
  · exact List.Nodup.map (fun a b hab => by omega) (List.nodup_range s)
  · intro x hx1 hx2
    simp only [List.mem_map, List.mem_range] at hx1 hx2
    obtain ⟨i, hi, rfl⟩ := hx1
    obtain ⟨j, hj, hij⟩ := hx2
    omega

/-! ### Claim theorems: C2, C7 -/

/-- C2: with segment capacity 1000, starting from the fresh segment created by
an `INCR` that returned `n`, the first 1000 allocation calls issue the 1000
consecutive values from `base = (n-1)*1000 + 1` with no Redis call and leave
the cursor at the capacity; call 1001 then performs exactly one additional
Redis `INCR` — by a fresh fetch whose result `n+1` yields the new active
segment with `base = ((n+1)-1)*1000 + 1`, `cursor` advanced to 1 after
serving, `capacity = 1000`, or (alternative conjunct) by promoting a pending
segment obtained from an earlier `INCR` with no further Redis call — and the
2000 raw values issued over both segments are pairwise distinct. -/
theorem claim2_segment_exhaustion (n : Nat) (hn : 1 ≤ n) :
    allocRun segmentSize ⟨some (freshSegment n), none, n⟩ =
        ((List.range segmentSize).map (fun i => (n - 1) * segmentSize + 1 + i),
          ⟨some ⟨segmentSize, segmentSize, (n - 1) * segmentSize + 1⟩, none, n⟩, 0) ∧
    allocStep ⟨some ⟨segmentSize, segmentSize, (n - 1) * segmentSize + 1⟩, none, n⟩ =
        (n * segmentSize + 1,
          ⟨some ⟨1, segmentSize, n * segmentSize + 1⟩, none, n + 1⟩, 1) ∧
    (∀ q : Nat, allocStep ⟨some ⟨segmentSize, segmentSize, (n - 1) * segmentSize + 1⟩,
          some (freshSegment q), n⟩ =
        ((q - 1) * segmentSize + 1,
          ⟨some ⟨1, segmentSize, (q - 1) * segmentSize + 1⟩, none, n⟩, 0)) ∧
    (allocRun segmentSize
        ⟨some ⟨segmentSize, segmentSize, (n - 1) * segmentSize + 1⟩, none, n⟩).1 =
      (List.range segmentSize).map (fun i => n * segmentSize + 1 + i) ∧
    (allocRun segmentSize
        ⟨some ⟨segmentSize, segmentSize, (n - 1) * segmentSize + 1⟩, none, n⟩).2.2 = 1 ∧
    ((allocRun (2 * segmentSize) ⟨some (freshSegment n), none, n⟩).1).Nodup := by
  have hb : freshSegment n = ⟨0, segmentSize, (n - 1) * segmentSize + 1⟩ := rfl
  have hrun1 : allocRun segmentSize ⟨some (freshSegment n), none, n⟩ =
      ((List.range segmentSize).map (fun i => (n - 1) * segmentSize + 1 + i),
        ⟨some ⟨segmentSize, segmentSize, (n - 1) * segmentSize + 1⟩, none, n⟩, 0) := by
    rw [hb]
    have h := allocRun_within segmentSize 0 segmentSize ((n - 1) * segmentSize + 1) n none
      (by omega)
    simpa using h
  have hstep : allocStep ⟨some ⟨segmentSize, segmentSize, (n - 1) * segmentSize + 1⟩, none, n⟩ =
      (n * segmentSize + 1,
        ⟨some ⟨1, segmentSize, n * segmentSize + 1⟩, none, n + 1⟩, 1) := by
    unfold allocStep promoteOrFetch freshSegment segmentSize
    simp
  have hrun2 := allocRun_after_exhaustion ((n - 1) * segmentSize + 1) n
  refine ⟨hrun1, hstep, ?_, by rw [hrun2], by rw [hrun2], ?_⟩
  · intro q
    unfold allocStep promoteOrFetch freshSegment
    simp
  · have e1 : (allocRun segmentSize ⟨some (freshSegment n), none, n⟩).2.1 =
        ⟨some ⟨segmentSize, segmentSize, (n - 1) * segmentSize + 1⟩, none, n⟩ := by
      rw [hrun1]
    have e2 : (allocRun segmentSize ⟨some (freshSegment n), none, n⟩).1 =
        (List.range segmentSize).map (fun i => (n - 1) * segmentSize + 1 + i) := by
      rw [hrun1]
    have e3 : (allocRun segmentSize
        ⟨some ⟨segmentSize, segmentSize, (n - 1) * segmentSize + 1⟩, none, n⟩).1 =
        (List.range segmentSize).map (fun i => n * segmentSize + 1 + i) := by
      rw [hrun2]
    rw [two_mul, allocRun_add segmentSize segmentSize, e1, e3, e2]
    have hmul : (n - 1) * segmentSize + segmentSize = n * segmentSize := by
      have h1 : n - 1 + 1 = n := by omega
      calc (n - 1) * segmentSize + segmentSize = (n - 1 + 1) * segmentSize := by ring
        _ = n * segmentSize := by rw [h1]
    exact nodup_range_maps segmentSize ((n - 1) * segmentSize + 1) (n * segmentSize + 1)
      (by omega)

/-- Witness for C2 at a concrete input. -/
theorem claim2_segment_exhaustion_witness :
    1 ≤ 1 ∧
    (allocRun segmentSize ⟨some (freshSegment 1), none, 1⟩ =
        ((List.range segmentSize).map (fun i => (1 - 1) * segmentSize + 1 + i),
          ⟨some ⟨segmentSize, segmentSize, (1 - 1) * segmentSize + 1⟩, none, 1⟩, 0) ∧
      allocStep ⟨some ⟨segmentSize, segmentSize, (1 - 1) * segmentSize + 1⟩, none, 1⟩ =
          (1 * segmentSize + 1,
            ⟨some ⟨1, segmentSize, 1 * segmentSize + 1⟩, none, 1 + 1⟩, 1) ∧
      (∀ q : Nat, allocStep ⟨some ⟨segmentSize, segmentSize, (1 - 1) * segmentSize + 1⟩,
            some (freshSegment q), 1⟩ =
          ((q - 1) * segmentSize + 1,
            ⟨some ⟨1, segmentSize, (q - 1) * segmentSize + 1⟩, none, 1⟩, 0)) ∧
      (allocRun segmentSize
          ⟨some ⟨segmentSize, segmentSize, (1 - 1) * segmentSize + 1⟩, none, 1⟩).1 =
        (List.range segmentSize).map (fun i => 1 * segmentSize + 1 + i) ∧
      (allocRun segmentSize
          ⟨some ⟨segmentSize, segmentSize, (1 - 1) * segmentSize + 1⟩, none, 1⟩).2.2 = 1 ∧
      ((allocRun (2 * segmentSize) ⟨some (freshSegment 1), none, 1⟩).1).Nodup) :=
  ⟨by decide, claim2_segment_exhaustion 1 (by decide)⟩

/-- C7: when an allocation call finds the active segment present, not
exhausted, with the cursor at or beyond the preload threshold (90% of the
capacity) and no load marked in flight, the pre-fetch trigger fires — and only
then; the pre-fetch itself performs one Redis `INCR` and stores the resulting
fresh segment as the at-most-one pending segment for the key (or directly
replaces the active segment if it has become exhausted in the meantime), while
a set loading flag makes it return untouched and a failed `INCR` leaves the
active and pending segments (and the counter) unchanged. -/
theorem claim7_preload_trigger (st : SegAllocState) (seg : IDSegment)
    (loading redisOK : Bool) (hactive : st.active = some seg) :
    (preloadTriggered st loading = true ↔
      seg.current < seg.max ∧ preloadThreshold seg.max ≤ seg.current ∧ loading = false) ∧
    (seg.current < seg.max →
      preloadNextSegment st false true =
        ({ st with pending := some (freshSegment (st.counter + 1)), counter := st.counter + 1 },
          false, 1)) ∧
    (seg.max ≤ seg.current →
      preloadNextSegment st false true =
        ({ st with active := some (freshSegment (st.counter + 1)), counter := st.counter + 1 },
          false, 1)) ∧
    preloadNextSegment st true redisOK = (st, true, 0) ∧
    preloadNextSegment st false false = (st, false, 1) := by
  obtain ⟨a, p, c⟩ := st
  simp only [SegAllocState.mk.injEq] at hactive ⊢
  subst hactive
  refine ⟨?_, ?_, ?_, ?_, ?_⟩
  · unfold preloadTriggered
    constructor
    · intro h
      simp only [Bool.and_eq_true, decide_eq_true_eq, Bool.not_eq_true'] at h
      exact ⟨h.1.1, h.1.2, h.2⟩
    · rintro ⟨h1, h2, h3⟩
      subst h3
      simp [h1, h2]
  · intro h
    unfold preloadNextSegment
    simp [Nat.not_le.mpr h]
  · intro h
    unfold preloadNextSegment
    simp [h]
  · unfold preloadNextSegment
    simp
  · unfold preloadNextSegment
    simp

/-- Witness for C7 at a concrete input. -/
theorem claim7_preload_trigger_witness :
    (⟨some ⟨950, 1000, 1⟩, none, 7⟩ : SegAllocState).active = some ⟨950, 1000, 1⟩ ∧
    ((preloadTriggered ⟨some ⟨950, 1000, 1⟩, none, 7⟩ false = true ↔
        (950 : Nat) < 1000 ∧ preloadThreshold 1000 ≤ 950 ∧ false = false) ∧
      ((950 : Nat) < 1000 →
        preloadNextSegment ⟨some ⟨950, 1000, 1⟩, none, 7⟩ false true =
          (⟨some ⟨950, 1000, 1⟩, some (freshSegment 8), 8⟩, false, 1)) ∧
      ((1000 : Nat) ≤ 950 →
        preloadNextSegment ⟨some ⟨950, 1000, 1⟩, none, 7⟩ false true =
          (⟨some (freshSegment 8), none, 8⟩, false, 1)) ∧
      preloadNextSegment ⟨some ⟨950, 1000, 1⟩, none, 7⟩ true false = (⟨some ⟨950, 1000, 1⟩, none, 7⟩, true, 0) ∧
      preloadNextSegment ⟨some ⟨950, 1000, 1⟩, none, 7⟩ false false = (⟨some ⟨950, 1000, 1⟩, none, 7⟩, false, 1)) :=
  ⟨rfl, claim7_preload_trigger ⟨some ⟨950, 1000, 1⟩, none, 7⟩ ⟨950, 1000, 1⟩ false false rfl⟩

/-! ### Snowflake lemmas and claims C4, C5 -/

/-- The masked sequence field is below the sequence bit width. -/
theorem seq_mask_lt (c : Nat) : c &&& sequenceMask < 2 ^ sequenceBits := by
  rw [and_sequenceMask]
  have h : (2 : Nat) ^ sequenceBits = 4096 := by norm_num [sequenceBits]
  rw [h]
  exact Nat.mod_lt _ (by norm_num)

/-- A non-wrapping increment of the counter increments the emitted field. -/
theorem seq_mask_succ {c : Nat} (h : (c + 1) &&& sequenceMask ≠ 0) :
    (c + 1) &&& sequenceMask = (c &&& sequenceMask) + 1 := by
  simp only [and_sequenceMask] at h ⊢
  omega

/-- C5: for a fixed node slot, a sequential call to the internal generator
returns a value strictly greater than the previously emitted one (the
invariant `emittedOf` describes the last emission and is re-established, so
any run of sequential calls is strictly increasing); moreover, within one
millisecond the emitted 12-bit sequence field increases by exactly one per
call, sequence exhaustion moves to the `tilNextMillis` result (a strictly
later millisecond) with the emitted sequence restarted at 0, and a newer
millisecond also restarts the emitted sequence at 0.  Oracle hypotheses:
the backward-guard sleep lands at or after `lastTimestamp + 5 ms`, and
`tilNextMillis` returns a time strictly after `lastTimestamp`. -/
theorem claim5_snowflake_strict_increase (nodeID : Nat) (st : SnowState)
    (now tAfterSleep tNext : Nat)
    (hnode : nodeID < 2 ^ nodeIDBits)
    (hstart : startTime ≤ st.lastTimestamp)
    (hsleep : st.lastTimestamp + clockBackwardWaitMs ≤ tAfterSleep)
    (hnext : st.lastTimestamp < tNext) :
    emittedOf nodeID st < (generateSnowflakeID nodeID st now tAfterSleep tNext).1 ∧
    (generateSnowflakeID nodeID st now tAfterSleep tNext).1 =
      emittedOf nodeID (generateSnowflakeID nodeID st now tAfterSleep tNext).2 ∧
    startTime ≤ (generateSnowflakeID nodeID st now tAfterSleep tNext).2.lastTimestamp ∧
    (handleClockBackward st.lastTimestamp now tAfterSleep = st.lastTimestamp →
      (st.sequence + 1) &&& sequenceMask ≠ 0 →
      (generateSnowflakeID nodeID st now tAfterSleep tNext).1 =
        composeID st.lastTimestamp nodeID ((st.sequence &&& sequenceMask) + 1)) ∧
    (handleClockBackward st.lastTimestamp now tAfterSleep = st.lastTimestamp →
      (st.sequence + 1) &&& sequenceMask = 0 →
      (generateSnowflakeID nodeID st now tAfterSleep tNext).1 = composeID tNext nodeID 0 ∧
      (generateSnowflakeID nodeID st now tAfterSleep tNext).2.lastTimestamp = tNext) ∧
    (handleClockBackward st.lastTimestamp now tAfterSleep ≠ st.lastTimestamp →
      (generateSnowflakeID nodeID st now tAfterSleep tNext).1 =
        composeID (handleClockBackward st.lastTimestamp now tAfterSleep) nodeID 0) := by
  have hwait : clockBackwardWaitMs = 5 := rfl
  by_cases he : handleClockBackward st.lastTimestamp now tAfterSleep = st.lastTimestamp
  · by_cases hz : (st.sequence + 1) &&& sequenceMask = 0
    · -- same millisecond, sequence wrapped: wait for the next millisecond
      have hgen : generateSnowflakeID nodeID st now tAfterSleep tNext =
          (composeID tNext nodeID ((st.sequence + 1) &&& sequenceMask),
            ⟨tNext, st.sequence + 1⟩) := by
        simp only [generateSnowflakeID, he, if_pos, hz, if_true]
      rw [hgen]
      refine ⟨?_, ?_, by simp; omega, ?_, ?_, ?_⟩
      · exact composeID_lt_of_ts hnext hstart hnode (seq_mask_lt _) (seq_mask_lt _)
      · simp [emittedOf]
      · intro _ hne; exact absurd hz hne
      · intro _ _; exact ⟨by rw [hz], rfl⟩
      · intro hne; exact absurd he hne
    · -- same millisecond, no wrap: sequence field increments
      have hgen : generateSnowflakeID nodeID st now tAfterSleep tNext =
          (composeID st.lastTimestamp nodeID ((st.sequence + 1) &&& sequenceMask),
            ⟨st.lastTimestamp, st.sequence + 1⟩) := by
        simp only [generateSnowflakeID, he, if_pos, hz, if_false]
      rw [hgen]
      refine ⟨?_, ?_, by simpa using hstart, ?_, ?_, ?_⟩
      · exact composeID_lt_of_seq (by rw [seq_mask_succ hz]; omega) hnode (seq_mask_lt _)
      · simp [emittedOf]
      · intro _ _; rw [seq_mask_succ hz]
      · intro _ hzz; exact absurd hzz hz
      · intro hne; exact absurd he hne
  · -- a newer millisecond: sequence restarts at 0
    have hlt : st.lastTimestamp < handleClockBackward st.lastTimestamp now tAfterSleep := by
      unfold handleClockBackward at he ⊢
      by_cases hc : now < st.lastTimestamp
      · rw [if_pos hc] at he ⊢
        omega
      · rw [if_neg hc] at he ⊢
        omega
    have hgen : generateSnowflakeID nodeID st now tAfterSleep tNext =
        (composeID (handleClockBackward st.lastTimestamp now tAfterSleep) nodeID 0,
          ⟨handleClockBackward st.lastTimestamp now tAfterSleep, 0⟩) := by
      simp only [generateSnowflakeID, if_neg he]
    rw [hgen]
    refine ⟨?_, ?_, by simp; omega, ?_, ?_, ?_⟩
    · exact composeID_lt_of_ts hlt hstart hnode (seq_mask_lt _) (by norm_num [sequenceBits])
    · simp [emittedOf]
    · intro heq _; exact absurd heq he
    · intro heq _; exact absurd heq he
    · intro _; rfl

/-- Witness for C5 at a concrete input. -/
theorem claim5_snowflake_strict_increase_witness :
    ((1 : Nat) < 2 ^ nodeIDBits ∧ startTime ≤ startTime + 100 ∧
      startTime + 100 + clockBackwardWaitMs ≤ startTime + 200 ∧
      startTime + 100 < startTime + 101) ∧
    (emittedOf 1 ⟨startTime + 100, 5⟩ <
      (generateSnowflakeID 1 ⟨startTime + 100, 5⟩ (startTime + 100)
        (startTime + 200) (startTime + 101)).1 ∧
    (generateSnowflakeID 1 ⟨startTime + 100, 5⟩ (startTime + 100)
        (startTime + 200) (startTime + 101)).1 =
      emittedOf 1 (generateSnowflakeID 1 ⟨startTime + 100, 5⟩ (startTime + 100)
        (startTime + 200) (startTime + 101)).2 ∧
    startTime ≤ (generateSnowflakeID 1 ⟨startTime + 100, 5⟩ (startTime + 100)
        (startTime + 200) (startTime + 101)).2.lastTimestamp ∧
    (handleClockBackward (SnowState.lastTimestamp ⟨startTime + 100, 5⟩) (startTime + 100)
        (startTime + 200) = startTime + 100 →
      ((5 : Nat) + 1) &&& sequenceMask ≠ 0 →
      (generateSnowflakeID 1 ⟨startTime + 100, 5⟩ (startTime + 100)
          (startTime + 200) (startTime + 101)).1 =
        composeID (startTime + 100) 1 (((5 : Nat) &&& sequenceMask) + 1)) ∧
    (handleClockBackward (SnowState.lastTimestamp ⟨startTime + 100, 5⟩) (startTime + 100)
        (startTime + 200) = startTime + 100 →
      ((5 : Nat) + 1) &&& sequenceMask = 0 →
      (generateSnowflakeID 1 ⟨startTime + 100, 5⟩ (startTime + 100)
          (startTime + 200) (startTime + 101)).1 = composeID (startTime + 101) 1 0 ∧
      (generateSnowflakeID 1 ⟨startTime + 100, 5⟩ (startTime + 100)
          (startTime + 200) (startTime + 101)).2.lastTimestamp = startTime + 101) ∧
    (handleClockBackward (SnowState.lastTimestamp ⟨startTime + 100, 5⟩) (startTime + 100)
        (startTime + 200) ≠ startTime + 100 →
      (generateSnowflakeID 1 ⟨startTime + 100, 5⟩ (startTime + 100)
          (startTime + 200) (startTime + 101)).1 =
        composeID (handleClockBackward (SnowState.lastTimestamp ⟨startTime + 100, 5⟩)
          (startTime + 100) (startTime + 200)) 1 0)) :=
  ⟨⟨by norm_num [nodeIDBits], by omega, by norm_num [clockBackwardWaitMs], by omega⟩,
    claim5_snowflake_strict_increase 1 ⟨startTime + 100, 5⟩ (startTime + 100)
      (startTime + 200) (startTime + 101) (by norm_num [nodeIDBits])
      (by show startTime ≤ startTime + 100; omega)
      (by show startTime + 100 + clockBackwardWaitMs ≤ startTime + 200
          norm_num [clockBackwardWaitMs])
      (by show startTime + 100 < startTime + 101; omega)⟩

/-- C4: if the clock jumps backward between two generations
(`now < lastTimestamp`), the call takes the dedicated clock-backward guard,
which sleeps until the clock has caught up to `lastTimestamp + 5 ms` (oracle
hypothesis `hsleep`); the timestamp it then uses and records is at least
`lastTimestamp + 5`, and the returned value is strictly greater than any value
emitted before the jump (any `prevSeq < 2 ^ 12` at the recorded timestamp).
The regression is handled internally: `generateSnowflakeID` has no failing
branch, its Go error result being unconditionally `nil`. -/
theorem claim4_clock_backward (nodeID prevSeq : Nat) (st : SnowState)
    (now tAfterSleep tNext : Nat)
    (hnode : nodeID < 2 ^ nodeIDBits) (hseq : prevSeq < 2 ^ sequenceBits)
    (hstart : startTime ≤ st.lastTimestamp)
    (hjump : now < st.lastTimestamp)
    (hsleep : st.lastTimestamp + clockBackwardWaitMs ≤ tAfterSleep) :
    st.lastTimestamp + clockBackwardWaitMs ≤
      handleClockBackward st.lastTimestamp now tAfterSleep ∧
    composeID st.lastTimestamp nodeID prevSeq <
      (generateSnowflakeID nodeID st now tAfterSleep tNext).1 ∧
    st.lastTimestamp + clockBackwardWaitMs ≤
      (generateSnowflakeID nodeID st now tAfterSleep tNext).2.lastTimestamp := by
  have hwait : clockBackwardWaitMs = 5 := rfl
  have hcb : handleClockBackward st.lastTimestamp now tAfterSleep = tAfterSleep := by
    unfold handleClockBackward
    rw [if_pos hjump]
  have hne : ¬(tAfterSleep = st.lastTimestamp) := by omega
  have hgen : generateSnowflakeID nodeID st now tAfterSleep tNext =
      (composeID tAfterSleep nodeID 0, ⟨tAfterSleep, 0⟩) := by
    simp only [generateSnowflakeID, hcb, if_neg hne]
  rw [hgen, hcb]
  refine ⟨hsleep, ?_, hsleep⟩
  exact composeID_lt_of_ts (by omega) hstart hnode hseq (by norm_num [sequenceBits])

/-- Witness for C4 at a concrete input. -/
theorem claim4_clock_backward_witness :
    ((1 : Nat) < 2 ^ nodeIDBits ∧ (7 : Nat) < 2 ^ sequenceBits ∧
      startTime ≤ startTime + 100 ∧ startTime + 50 < startTime + 100 ∧
      startTime + 100 + clockBackwardWaitMs ≤ startTime + 105) ∧
    (startTime + 100 + clockBackwardWaitMs ≤
        handleClockBackward (SnowState.lastTimestamp ⟨startTime + 100, 9⟩) (startTime + 50)
          (startTime + 105) ∧
      composeID (startTime + 100) 1 7 <
        (generateSnowflakeID 1 ⟨startTime + 100, 9⟩ (startTime + 50) (startTime + 105)
          (startTime + 101)).1 ∧
      startTime + 100 + clockBackwardWaitMs ≤
        (generateSnowflakeID 1 ⟨startTime + 100, 9⟩ (startTime + 50) (startTime + 105)
          (startTime + 101)).2.lastTimestamp) :=
  ⟨⟨by norm_num [nodeIDBits], by norm_num [sequenceBits], by omega, by omega,
      by norm_num [clockBackwardWaitMs]⟩,
    claim4_clock_backward 1 7 ⟨startTime + 100, 9⟩ (startTime + 50) (startTime + 105)
      (startTime + 101) (by norm_num [nodeIDBits]) (by norm_num [sequenceBits])
      (by show startTime ≤ startTime + 100; omega)
      (by show startTime + 50 < startTime + 100; omega)
      (by show startTime + 100 + clockBackwardWaitMs ≤ startTime + 105
          norm_num [clockBackwardWaitMs])⟩

/-! ### Claim C3: `GenId` monotonicity -/

/-- C3 counterexample: the Redis sequence-mixing path of `GenId` is not
strictly increasing.  Two successive sonyflake ids of one instance (machine id
0, same time unit, sequence 1 then 2: `1 << 16` then `2 << 16`) mixed with two
successive Redis `INCR` results (191 then 192) produce a strictly decreasing
pair of outputs. -/
theorem claim3_counterexample :
    (65536 : Nat) < 131072 ∧ (191 : Nat) < 192 ∧
    genId (some 192) 131072 < genId (some 191) 65536 := by decide

/-- C3 amended: only on the plain local snowflake path does `GenId` return the
sonyflake id unchanged, so sequential calls there are strictly increasing
whenever the sonyflake ids are; the xor-mixing Redis path does not preserve
strict order (see the counterexample). -/
theorem claim3_local_path_monotone (flakeID1 flakeID2 : Nat) (h : flakeID1 < flakeID2) :
    genId none flakeID1 < genId none flakeID2 := h

/-- Witness for the amended C3 at a concrete input. -/
theorem claim3_local_path_monotone_witness :
    (65536 : Nat) < 131072 ∧ genId none 65536 < genId none 131072 :=
  ⟨by decide, claim3_local_path_monotone 65536 131072 (by decide)⟩

/-! ### Claim C8: node-slot range -/

/-- Every machine-id resolution path yields a value below 1024. -/
theorem machineIDOf_lt (src : MachineIDSource) : machineIDOf src < 1024 := by
  cases src with
  | k8s meta => exact Nat.mod_lt _ (by norm_num)
  | docker cid => exact Nat.mod_lt _ (by norm_num)
  | mac addr => exact Nat.mod_lt _ (by norm_num)
  | rand r => exact Nat.mod_lt _ (by norm_num)

/-- The allocation/fallback paths stay within the 10-bit slot range. -/
theorem resolveViaAlloc_range (src : MachineIDSource) (redisAvail setnxOK : Bool)
    (probe : Option (Fin 1024)) :
    0 ≤ resolveViaAlloc (machineIDOf src) redisAvail setnxOK probe ∧
    resolveViaAlloc (machineIDOf src) redisAvail setnxOK probe < 1024 := by
  have hmid : machineIDOf src < 1024 := machineIDOf_lt src
  have hmask : (machineIDOf src &&& nodeIDMask) < 1024 := by
    rw [and_nodeIDMask]
    exact Nat.mod_lt _ (by norm_num)
  unfold resolveViaAlloc allocateNodeIDFromRedis
  cases redisAvail with
  | false =>
    simp only [Bool.false_eq_true, if_false]
    omega
  | true =>
    simp only [if_true]
    cases setnxOK with
    | true =>
      simp only [if_true]
      omega
    | false =>
      simp only [Bool.false_eq_true, if_false]
      cases probe with
      | none => simp only; omega
      | some i =>
        have hi := i.isLt
        simp only
        omega

/-- C8 counterexample: on the restore-from-file path with Redis unavailable,
a persisted value of 2048 (any positive int64 in the file) is used as the node
slot unchecked, violating the `[0, 1023]` range. -/
theorem claim8_counterexample :
    resolveNodeID (machineIDOf (.rand 5)) (some 2048) false false false none = 2048 ∧
    ¬(resolveNodeID (machineIDOf (.rand 5)) (some 2048) false false false none ≤ 1023) := by
  decide

/-- C8 amended: every node slot produced by the Redis `SETNX` allocation path
(preferred slot or probe) and by the degraded local fallback
(`machineID & nodeIDMask`) lies in `[0, 1023]` — for every machine-id source —
but the restore-from-file path only checks positivity (plus, at most, a Redis
`EXISTS` on the corresponding key), so it is excluded: whenever that path is
not taken, the resulting slot is in range. -/
theorem claim8_slot_range (src : MachineIDSource) (saved : Option Int)
    (redisAvail savedValid setnxOK : Bool) (probe : Option (Fin 1024))
    (hsaved : usesSavedPath saved redisAvail savedValid = false) :
    0 ≤ resolveNodeID (machineIDOf src) saved redisAvail savedValid setnxOK probe ∧
    resolveNodeID (machineIDOf src) saved redisAvail savedValid setnxOK probe < 1024 := by
  have halloc := resolveViaAlloc_range src redisAvail setnxOK probe
  cases saved with
  | none => simpa [resolveNodeID] using halloc
  | some s =>
    simp only [resolveNodeID]
    by_cases hs : 0 < s
    · have hrv : redisAvail = true ∧ savedValid = false := by
        unfold usesSavedPath at hsaved
        simp only [decide_eq_true_eq, Bool.and_eq_false_iff, Bool.or_eq_false_iff,
          Bool.not_eq_false', decide_eq_false_iff_not] at hsaved
        rcases hsaved with h | h
        · exact absurd hs h
        · exact ⟨by simpa using h.1, h.2⟩
      obtain ⟨hr, hv⟩ := hrv
      subst hr hv
      rw [if_pos hs]
      simpa using halloc
    · rw [if_neg hs]
      exact halloc

/-- Witness for the amended C8 at a concrete input. -/
theorem claim8_slot_range_witness :
    usesSavedPath none false false = false ∧
    (0 ≤ resolveNodeID (machineIDOf (.rand 5)) none false false false none ∧
      resolveNodeID (machineIDOf (.rand 5)) none false false false none < 1024) :=
  ⟨by decide, claim8_slot_range (.rand 5) none false false false none (by decide)⟩

/-! ### Invite-code lemmas and claim C9 -/

/-- The alphabet has 35 characters. -/
theorem inviteCodeChars_length : inviteCodeChars.length = 35 := by decide

/-- Wrapping `wrap64` is the identity on the nonnegative `int64` range. -/
theorem wrap64_eq_self {x : Int} (h0 : 0 ≤ x) (h1 : x < 2 ^ 63) : wrap64 x = x := by
  unfold wrap64
  have h := Int.emod_eq_of_lt (a := x + 2 ^ 63) (b := 2 ^ 64) (by omega) (by omega)
  omega

/-- Indexing the alphabet below its length succeeds and lands in it. -/
theorem inviteCodeChars_get? {n : Nat} (h : n < 35) :
    ∃ c, inviteCodeChars.get? n = some c ∧ c ∈ inviteCodeChars := by
  have hl : n < inviteCodeChars.length := by rw [inviteCodeChars_length]; exact h
  exact ⟨inviteCodeChars.get ⟨n, hl⟩, List.get?_eq_get hl, List.get_mem _ _ hl⟩

/-- Reading `getD` on the alphabet with an in-range index lands in it. -/
theorem inviteCodeChars_getD_mem : ∀ n, n < 35 → inviteCodeChars.getD n 'X' ∈ inviteCodeChars := by
  decide

/-- As long as the mixed sequence stays in the nonnegative `int64` range —
which the invariant `m < 268439552 * 31 ^ i - 4096` (with `268439552 =
2^28 + 2^12`) guarantees through all eight steps — the Redis character loop
returns `k` characters of the alphabet. -/
theorem inviteRedisChars_total (part2 : Nat) (hp2 : part2 < 2 ^ 16) :
    ∀ k i : Nat, ∀ m : Int, i + k = 8 → 0 ≤ m →
      m < 268439552 * 31 ^ i - 4096 →
      ∃ cs, inviteRedisChars part2 k i m = some cs ∧ cs.length = k ∧
        ∀ c ∈ cs, c ∈ inviteCodeChars := by
  intro k
  induction k with
  | zero =>
    intro i m _ _ _
    exact ⟨[], rfl, rfl, by simp⟩
  | succ k ih =>
    intro i m hik h0 hub
    have hi7 : i ≤ 7 := by omega
    have hp2' : (part2 : Int) < 65536 := by exact_mod_cast hp2
    have hA1 : (0 : Int) < 31 ^ i := pow_pos (by norm_num) i
    have hA7 : (31 : Int) ^ i ≤ 27512614111 := by
      calc (31 : Int) ^ i ≤ 31 ^ 7 := pow_le_pow_right₀ (by norm_num) hi7
        _ = 27512614111 := by norm_num
    have hi' : (i : Int) ≤ 7 := by exact_mod_cast hi7
    have hmlt : m < 2 ^ 63 - 600 := by
      have : (268439552 : Int) * 31 ^ i ≤ 268439552 * 27512614111 :=
        mul_le_mul_of_nonneg_left hA7 (by norm_num)
      omega
    have hargb : 0 ≤ m + (i : Int) * 79 := by omega
    have hargu : m + (i : Int) * 79 < 2 ^ 63 := by omega
    have hidx0 : 0 ≤ (m + (i : Int) * 79).tmod 35 := Int.tmod_nonneg _ hargb
    have hidx35 : (m + (i : Int) * 79).tmod 35 < 35 := Int.tmod_lt_of_pos _ (by norm_num)
    have hidxN : ((m + (i : Int) * 79).tmod 35).toNat < 35 := by omega
    obtain ⟨c, hc, hcmem⟩ := inviteCodeChars_get? hidxN
    rw [inviteRedisChars, wrap64_eq_self hargb hargu, if_pos hidx0, hc]
    cases k with
    | zero =>
      refine ⟨[c], ?_, rfl, ?_⟩
      · rw [inviteRedisChars]
        rfl
      · intro c' hc'
        rcases List.mem_singleton.mp hc' with rfl
        exact hcmem
    | succ k' =>
      have hi6 : i ≤ 6 := by omega
      have hA6 : (31 : Int) ^ i ≤ 887503681 := by
        calc (31 : Int) ^ i ≤ 31 ^ 6 := pow_le_pow_right₀ (by norm_num) hi6
          _ = 887503681 := by norm_num
      have hAs : (31 : Int) ^ (i + 1) = 31 * 31 ^ i := by
        rw [pow_succ]; ring
      have hm0' : 0 ≤ m * 31 + (part2 : Int) := by
        have : 0 ≤ (part2 : Int) := by positivity
        omega
      have hm63' : m * 31 + (part2 : Int) < 2 ^ 63 := by omega
      have hub' : m * 31 + (part2 : Int) < 268439552 * 31 ^ (i + 1) - 4096 := by
        rw [hAs]
        omega
      obtain ⟨cs, hcs, hlen, hmem⟩ := ih (i + 1) (wrap64 (m * 31 + (part2 : Int)))
        (by omega) (by rw [wrap64_eq_self hm0' hm63']; exact hm0')
        (by rw [wrap64_eq_self hm0' hm63']; exact hub')
      refine ⟨c :: cs, ?_, by simp [hlen], ?_⟩
      · rw [hcs]
        rfl
      · intro c' hc'
        rcases List.mem_cons.mp hc' with rfl | h
        · exact hcmem
        · exact hmem c' h

/-- The local character loop always yields `k` alphabet characters. -/
theorem inviteLocalChars_spec (p13 : Nat) (rnds : Nat → Nat) :
    ∀ k i mix : Nat, (inviteLocalChars p13 rnds k i mix).length = k ∧
      ∀ c ∈ inviteLocalChars p13 rnds k i mix, c ∈ inviteCodeChars := by
  intro k
  induction k with
  | zero => intro i mix; exact ⟨rfl, by simp [inviteLocalChars]⟩
  | succ k ih =>
    intro i mix
    rw [inviteLocalChars]
    by_cases hi : i < 3
    · rw [if_pos hi]
      obtain ⟨hl, hm⟩ := ih (i + 1) ((mix * 31 + p13) % 2 ^ 32)
      refine ⟨by simp only [List.length_cons]; exact congrArg (· + 1) hl, ?_⟩
      intro c hc
      rcases List.mem_cons.mp hc with rfl | h
      · exact inviteCodeChars_getD_mem _ (Nat.mod_lt _ (by norm_num))
      · exact hm c h
    · rw [if_neg hi]
      obtain ⟨hl, hm⟩ := ih (i + 1) mix
      refine ⟨by simp only [List.length_cons]; exact congrArg (· + 1) hl, ?_⟩
      intro c hc
      rcases List.mem_cons.mp hc with rfl | h
      · exact inviteCodeChars_getD_mem _ (Nat.mod_lt _ (by norm_num))
      · exact hm c h

/-- A list of 8 alphabet characters passes `VerifyInviteCode`. -/
theorem verifyInviteCode_of (cs : List Char) (hlen : cs.length = inviteCodeLength)
    (hmem : ∀ c ∈ cs, c ∈ inviteCodeChars) : verifyInviteCode cs = true := by
  have hne : ¬(cs = []) := by
    intro h
    subst h
    simp [inviteCodeLength] at hlen
  have hlen' : ¬(cs.length ≠ inviteCodeLength) := by simp [hlen]
  unfold verifyInviteCode
  rw [if_neg hne, if_neg hlen', List.all_eq_true]
  intro c hc
  rw [List.mem_map] at hc
  obtain ⟨c', hc', rfl⟩ := hc
  have hup : ∀ c ∈ inviteCodeChars, inviteCodeChars.contains (Char.toUpper c) = true := by
    decide
  exact hup c' (hmem c' hc')

/-- C9 counterexample: for the Redis `INCR` result `2 ^ 62` and user id 1,
the iterated `mixedSeq*31` mixing overflows `int64`, the character index goes
negative and the byte indexing panics (modelled by `none`), so
`VerifyInviteCode(GenInviteCode(1))` does not hold for every `INCR` result. -/
theorem claim9_counterexample :
    genInviteCode 1 (some (2 ^ 62)) 0 (fun _ => 0) = none :=
  Option.isNone_iff_eq_none.mp (by decide)

/-- C9 amended: for every nonzero `userID`, `GenInviteCode` produces a code of
exactly `inviteCodeLength` characters of the alphabet that
`VerifyInviteCode` accepts — on the local fallback path unconditionally, and
on the Redis-sequence path for every `INCR` result small enough (e.g. below
`2 ^ 28`) that the iterated `*31` mixing stays inside the nonnegative `int64`
range; for larger results the index computation can go negative and the byte
indexing panics (see the counterexample).  `GenInviteCode(0)` returns the
zero-user-id error on both paths. -/
theorem claim9_invite_roundtrip (userID seq rnd0 : Nat) (rnds : Nat → Nat)
    (huser : userID ≠ 0) (hseq : seq < 2 ^ 28) :
    (∃ cs, genInviteCode userID (some seq) rnd0 rnds = some (.ok cs) ∧
      cs.length = inviteCodeLength ∧ (∀ c ∈ cs, c ∈ inviteCodeChars) ∧
      verifyInviteCode cs = true) ∧
    (∃ cs, genInviteCode userID none rnd0 rnds = some (.ok cs) ∧
      cs.length = inviteCodeLength ∧ (∀ c ∈ cs, c ∈ inviteCodeChars) ∧
      verifyInviteCode cs = true) ∧
    genInviteCode 0 (some seq) rnd0 rnds = some (.error "userID cannot be zero") ∧
    genInviteCode 0 none rnd0 rnds = some (.error "userID cannot be zero") := by
  have hmask : (0xFFFF : Nat) = 2 ^ 16 - 1 := rfl
  have hp1 : userID &&& 0xFFFF < 2 ^ 16 := by
    rw [hmask, Nat.and_pow_two_sub_one_eq_mod]
    exact Nat.mod_lt _ (by norm_num)
  have hp2 : (userID >>> 16) &&& 0xFFFF < 2 ^ 16 := by
    rw [hmask, Nat.and_pow_two_sub_one_eq_mod]
    exact Nat.mod_lt _ (by norm_num)
  have hp3 : (userID >>> 32) &&& 0xFFFF < 2 ^ 16 := by
    rw [hmask, Nat.and_pow_two_sub_one_eq_mod]
    exact Nat.mod_lt _ (by norm_num)
  refine ⟨?_, ?_, rfl, rfl⟩
  · have hseed : seq ^^^ (userID &&& 0xFFFF) ^^^ ((userID >>> 32) &&& 0xFFFF) < 2 ^ 28 := by
      apply Nat.xor_lt_two_pow
      · exact Nat.xor_lt_two_pow hseq (lt_of_lt_of_le hp1 (by norm_num))
      · exact lt_of_lt_of_le hp3 (by norm_num)
    have hseedI : ((seq ^^^ (userID &&& 0xFFFF) ^^^ ((userID >>> 32) &&& 0xFFFF) : Nat) : Int)
        < 268439552 * 31 ^ 0 - 4096 := by
      have h1 : ((seq ^^^ (userID &&& 0xFFFF) ^^^ ((userID >>> 32) &&& 0xFFFF) : Nat) : Int)
          < 2 ^ 28 := by exact_mod_cast hseed
      norm_num at h1 ⊢
      omega
    obtain ⟨cs, hcs, hlen, hmem⟩ := inviteRedisChars_total ((userID >>> 16) &&& 0xFFFF) hp2
      8 0 (((seq ^^^ (userID &&& 0xFFFF) ^^^ ((userID >>> 32) &&& 0xFFFF) : Nat) : Int))
      (by omega) (by positivity) hseedI
    refine ⟨cs, ?_, hlen, hmem, verifyInviteCode_of cs hlen hmem⟩
    have hg : genInviteCodeRedis userID seq = some cs := hcs
    unfold genInviteCode
    rw [if_neg huser]
    show Option.map Except.ok (genInviteCodeRedis userID seq) = some (Except.ok cs)
    rw [hg]
    rfl
  · obtain ⟨hlen, hmem⟩ := inviteLocalChars_spec
      ((userID &&& 0xFFFF) + ((userID >>> 32) &&& 0xFFFF)) rnds inviteCodeLength 0
      (((userID &&& 0xFFFF) ^^^ ((userID >>> 16) &&& 0xFFFF) ^^^ ((userID >>> 32) &&& 0xFFFF)
          ^^^ ((userID >>> 48) &&& 0xFFFF)) ||| (rnd0 % 10000))
    refine ⟨genInviteCodeLocal userID rnd0 rnds, ?_, ?_, ?_, ?_⟩
    · unfold genInviteCode
      rw [if_neg huser]
    · exact hlen
    · exact hmem
    · exact verifyInviteCode_of _ hlen hmem

/-- Witness for the amended C9 at a concrete input. -/
theorem claim9_invite_roundtrip_witness :
    ((1 : Nat) ≠ 0 ∧ (5 : Nat) < 2 ^ 28) ∧
    ((∃ cs, genInviteCode 1 (some 5) 0 (fun _ => 0) = some (.ok cs) ∧
        cs.length = inviteCodeLength ∧ (∀ c ∈ cs, c ∈ inviteCodeChars) ∧
        verifyInviteCode cs = true) ∧
      (∃ cs, genInviteCode 1 none 0 (fun _ => 0) = some (.ok cs) ∧
        cs.length = inviteCodeLength ∧ (∀ c ∈ cs, c ∈ inviteCodeChars) ∧
        verifyInviteCode cs = true) ∧
      genInviteCode 0 (some 5) 0 (fun _ => 0) = some (.error "userID cannot be zero") ∧
      genInviteCode 0 none 0 (fun _ => 0) = some (.error "userID cannot be zero")) :=
  ⟨⟨by decide, by decide⟩,
    claim9_invite_roundtrip 1 5 0 (fun _ => 0) (by decide) (by decide)⟩

end Idgen
